import Mathlib

/-!
# Waldur marketplace order-fulfillment core: a shallow embedding

This file embeds, in Lean, the marketplace order-fulfillment and
usage-billing core of the Waldur mastermind repository
(`src/waldur_mastermind/marketplace/{models,utils,tasks}.py` and
`src/waldur_mastermind/invoices/serializers.py`) and proves properties
about the embedded operations.

Conventions used throughout:
* django-fsm `@transition(field=state, source=S, target=T)` methods are
  embedded as functions `State → Option State`: the result is `some T`
  when the current state is in the source list (`'*'` meaning any state)
  and `none` when the transition is rejected (django-fsm raises
  `TransitionNotAllowed` and leaves the state untouched).
* Python exceptions are embedded with `Except`; Django's
  `transaction.atomic` is embedded by a wrapper that returns the original
  state when the body ends in an error (rollback).
* Decimal arithmetic is embedded with `Rat`; dates are embedded as
  natural-number day / month indices, with a month-start operation where
  the code calls `core_utils.month_start`.
-/

namespace Waldur

/-! ## OrderItem state machine (`marketplace/models.py`, class `OrderItem`) -/

/-- States of `OrderItem.States`: PENDING, EXECUTING, DONE, ERRED,
TERMINATED, TERMINATING. -/
inductive ItemState
  | pending
  | executing
  | done
  | erred
  | terminated
  | terminating
deriving DecidableEq, Repr

/-- Transition methods declared on `OrderItem`; each corresponds to one
`@transition`-decorated method. -/
inductive ItemEvent
  | setStateExecuting
  | setStateDone
  | setStateErred
  | setStateTerminated
  | setStateTerminating
deriving DecidableEq, Repr

/-- Target state of each `OrderItem` transition method, as declared in the
`@transition(..., target=...)` decorators. -/
def itemEventTarget : ItemEvent → ItemState
  | .setStateExecuting => .executing
  | .setStateDone => .done
  | .setStateErred => .erred
  | .setStateTerminated => .terminated
  | .setStateTerminating => .terminating

/-- Embedding of the `OrderItem` transition table from
`marketplace/models.py`:
`set_state_executing`: source `[PENDING, ERRED]`, target `EXECUTING`;
`set_state_done`: source `EXECUTING`, target `DONE`;
`set_state_erred`: source `'*'`, target `ERRED`;
`set_state_terminated`: source `'*'`, target `TERMINATED`;
`set_state_terminating`: source `[PENDING, EXECUTING]`, target
`TERMINATING`.  The result is `none` when django-fsm would raise
`TransitionNotAllowed`. -/
def orderItemStep (s : ItemState) : ItemEvent → Option ItemState
  | .setStateExecuting =>
      if s = .pending ∨ s = .erred then some .executing else none
  | .setStateDone => if s = .executing then some .done else none
  | .setStateErred => some .erred
  | .setStateTerminated => some .terminated
  | .setStateTerminating =>
      if s = .pending ∨ s = .executing then some .terminating else none

/-- State observed after attempting a transition: on rejection the state
is unchanged (django-fsm raises before mutating the field). -/
def applyItemEvent (s : ItemState) (e : ItemEvent) : ItemState :=
  (orderItemStep s e).getD s

/-- Adjacency relation of the code's transition table, written over
(source, target) pairs: Pending/Erred → Executing; Executing → Done;
any → Erred; any → Terminated; Pending/Executing → Terminating. -/
def codeItemAdjacent (s t : ItemState) : Bool :=
  ((s = .pending ∨ s = .erred) ∧ t = .executing)
  ∨ (s = .executing ∧ t = .done)
  ∨ t = .erred
  ∨ t = .terminated
  ∨ ((s = .pending ∨ s = .executing) ∧ t = .terminating)

end Waldur

namespace Waldur

/-- Claim C1 counterexample input: the claim asserts that `Done` is
terminal, so the attempt `Done → Erred` (method `set_state_erred`) must be
rejected with the state unchanged.  In the code `set_state_erred` is a
wildcard transition (`source='*'`), so from `Done` it succeeds and the
state becomes `Erred ≠ Done`. -/
theorem C1_counterexample :
    applyItemEvent ItemState.done ItemEvent.setStateErred = ItemState.erred
    ∧ ItemState.erred ≠ ItemState.done := by
  exact ⟨rfl, by decide⟩

/-- Claim C1 (amended): an OrderItem transition attempt is accepted
exactly when its (source, target) pair is in the code's adjacency list —
Pending/Erred → Executing; Executing → Done; any state → Erred; any state
→ Terminated; Pending/Executing → Terminating — in which case the state
becomes the target; every other attempt is rejected and the state is
unchanged.  In particular `Done`, `Erred`, `Terminated` admit no outgoing
transitions other than the wildcard moves to `Erred` and `Terminated`
(and `Erred → Executing`). -/
theorem C1_state_machine_closure (s : ItemState) (e : ItemEvent) :
    (codeItemAdjacent s (itemEventTarget e) = true →
      orderItemStep s e = some (itemEventTarget e)
      ∧ applyItemEvent s e = itemEventTarget e)
    ∧ (codeItemAdjacent s (itemEventTarget e) = false →
      orderItemStep s e = none ∧ applyItemEvent s e = s) := by
  cases s <;> cases e <;> decide

/-- Claim C1 witness: the attempt `Done → Done` (method `set_state_done`
from state `Done`) is outside the code's adjacency list, hence rejected
with the state unchanged. -/
theorem C1_witness :
    orderItemStep ItemState.done ItemEvent.setStateDone = none
    ∧ applyItemEvent ItemState.done ItemEvent.setStateDone = ItemState.done :=
  (C1_state_machine_closure ItemState.done ItemEvent.setStateDone).2 (by decide)

/-! ## Order state machine (`marketplace/models.py`, class `Order`) -/

/-- States of `Order.States`. -/
inductive OrderState
  | requestedForApproval
  | executing
  | done
  | terminated
  | erred
  | rejected
deriving DecidableEq, Repr

/-- Embedding of `Order.approve`: `@transition(source=REQUESTED_FOR_APPROVAL,
target=EXECUTING)`. -/
def orderApprove (s : OrderState) : Option OrderState :=
  if s = .requestedForApproval then some .executing else none

/-! ## Provisioning dispatch (`marketplace/utils.py`, `process_order_item`) -/

/-- Mutable fields of an `OrderItem` that the dispatch layer touches,
plus the offering type used to select a processor. -/
structure OrderItemRec where
  offeringType : String
  state : ItemState
  errorMessage : String
  errorTraceback : String
deriving DecidableEq, Repr

/-- Outcome of invoking `processor(order_item).process_order_item(user)`:
either it returns normally (possibly having mutated the item) or it
raises an exception carrying `str(e)` and `traceback.format_exc()`. -/
inductive ProcOutcome
  | ok (item : OrderItemRec)
  | raised (msg : String) (tb : String)
deriving DecidableEq, Repr

/-- A provisioning processor, as seen from the dispatch boundary. -/
def Processor := OrderItemRec → ProcOutcome

/-- Embedding of `utils.process_order_item(order_item, user)`: when no
processor is registered for the offering type the item is marked erred
with the fixed skip message; when the processor raises, the exception
message and traceback are recorded and the item is moved to `Erred`
(via the wildcard `set_state_erred`); otherwise the processor's result
stands. -/
def process_order_item (proc : Option Processor) (item : OrderItemRec) :
    OrderItemRec :=
  match proc with
  | none =>
      { item with
        errorMessage :=
          "Skipping order item processing because processor is not found."
        state := (orderItemStep item.state .setStateErred).getD item.state }
  | some p =>
      match p item with
      | .ok item2 => item2
      | .raised msg tb =>
          { item with
            errorMessage := msg
            errorTraceback := tb
            state := (orderItemStep item.state .setStateErred).getD item.state }

/-- An order together with its items, as visible to the dispatch layer. -/
structure OrderRec where
  state : OrderState
  items : List OrderItemRec
deriving DecidableEq, Repr

/-- Dispatch of the single order item at position `i` of an order through
`utils.process_order_item`; no other row is touched by that function. -/
def dispatchItemAt (w : OrderRec) (i : Nat) (proc : Option Processor) :
    OrderRec :=
  match w.items[i]? with
  | none => w
  | some it => { w with items := w.items.set i (process_order_item proc it) }

/-- Claim C2: when the processor for the item at position `i` raises, the
dispatch boundary catches the exception, records its message and
traceback on that item and moves exactly that one item to `Erred` (never
leaving it in `Executing`); every sibling item is unchanged and the
parent order's state is unchanged. -/
theorem C2_dispatch_error_containment (w : OrderRec) (i : Nat)
    (p : Processor) (it : OrderItemRec) (msg tb : String)
    (hit : w.items[i]? = some it) (hp : p it = .raised msg tb) :
    (dispatchItemAt w i (some p)).items[i]? =
      some { it with errorMessage := msg, errorTraceback := tb,
                     state := .erred }
    ∧ (∀ j, j ≠ i →
        (dispatchItemAt w i (some p)).items[j]? = w.items[j]?)
    ∧ (dispatchItemAt w i (some p)).state = w.state := by
  have hstep : process_order_item (some p) it =
      { it with errorMessage := msg, errorTraceback := tb,
                state := .erred } := by
    simp [process_order_item, hp, orderItemStep]
  have hi : i < w.items.length := by
    rcases List.getElem?_eq_some_iff.mp hit with ⟨h, _⟩
    exact h
  refine ⟨?_, ?_, ?_⟩
  · simp [dispatchItemAt, hit, hstep, List.getElem?_set_self hi]
  · intro j hj
    simp [dispatchItemAt, hit, List.getElem?_set_ne (fun h => hj h.symm)]
  · simp [dispatchItemAt, hit]

/-- Claim C2 witness: a concrete two-item order whose second item's
processor raises `boom`; only that item changes, ending `Erred` with the
message recorded, and the order state stays `Executing`. -/
theorem C2_witness :
    (dispatchItemAt
        ⟨.executing,
          [⟨"basic", .executing, "", ""⟩, ⟨"basic", .executing, "", ""⟩]⟩
        1 (some fun _ => .raised "boom" "tb")).items[1]? =
      some ⟨"basic", .erred, "boom", "tb"⟩
    ∧ (∀ j, j ≠ 1 →
        (dispatchItemAt
          ⟨.executing,
            [⟨"basic", .executing, "", ""⟩, ⟨"basic", .executing, "", ""⟩]⟩
          1 (some fun _ => .raised "boom" "tb")).items[j]? =
        (⟨.executing,
          [⟨"basic", .executing, "", ""⟩,
           ⟨"basic", .executing, "", ""⟩]⟩ : OrderRec).items[j]?)
    ∧ (dispatchItemAt
        ⟨.executing,
          [⟨"basic", .executing, "", ""⟩, ⟨"basic", .executing, "", ""⟩]⟩
        1 (some fun _ => .raised "boom" "tb")).state = .executing :=
  C2_dispatch_error_containment
    ⟨.executing, [⟨"basic", .executing, "", ""⟩, ⟨"basic", .executing, "", ""⟩]⟩
    1 (fun _ => .raised "boom" "tb") ⟨"basic", .executing, "", ""⟩
    "boom" "tb" rfl rfl

/-! ## Resource expiry sweep (`marketplace/tasks.py`,
`terminate_resource_if_its_end_date_has_been_reached`) -/

/-- States of `Resource.States`. -/
inductive ResourceState
  | creating
  | ok
  | erred
  | updating
  | terminating
  | terminated
deriving DecidableEq, Repr

/-- Fields of a marketplace `Resource` read by the expiry sweep.
`endDate` is a day index; `none` embeds SQL `NULL`. -/
structure ResourceRec where
  state : ResourceState
  endDate : Option Nat
deriving DecidableEq, Repr

/-- Embedding of the queryset in
`terminate_resource_if_its_end_date_has_been_reached`:
`Resource.objects.exclude(end_date__isnull=True, state__in=(TERMINATED,
TERMINATING)).filter(end_date__lte=today)`.  A single `exclude` call with
two keyword arguments removes only the rows satisfying the CONJUNCTION of
both conditions; the subsequent `filter` keeps rows whose non-NULL
`end_date` is at most `today` (a NULL comparison is never true). -/
def expiredSweepSelects (today : Nat) (r : ResourceRec) : Bool :=
  (!(r.endDate.isNone
      && (r.state = ResourceState.terminated
          ∨ r.state = ResourceState.terminating : Bool)))
  && (match r.endDate with | some d => d ≤ today | none => false)

/-- Modelled from the spec: the selection the claim describes — resources
whose `end_date` has passed and which are not already in state
`Terminated` or `Terminating`. -/
def expiredSweepSelectsSpec (today : Nat) (r : ResourceRec) : Bool :=
  (match r.endDate with | some d => d ≤ today | none => false)
  && !(r.state = ResourceState.terminated
        ∨ r.state = ResourceState.terminating : Bool)

/-- Claim C3 failing input: a resource already in state `Terminating`
with `end_date` in the past (end day 0, sweep run on day 1).  The code's
single `exclude(end_date__isnull=True, state__in=...)` conjoins the two
conditions, so after `filter(end_date__lte=today)` the state condition is
vacuous and the already-terminating resource is selected and scheduled
for termination again, while the claim (and the evident intent of the
`exclude`) says it must not be selected. -/
theorem C3_expiry_sweep_bug :
    expiredSweepSelects 1 ⟨ResourceState.terminating, some 0⟩ = true
    ∧ expiredSweepSelectsSpec 1 ⟨ResourceState.terminating, some 0⟩ = false := by
  decide

/-! ## Offering catalog and cost estimation (`marketplace/models.py`,
`OfferingComponent`, `Plan.get_estimate`, `RequestTypeMixin.init_cost`) -/

/-- Values of `OfferingComponent.BillingTypes`. -/
inductive BillingType
  | fixed
  | usage
  | limit
  | oneTime
  | onPlanSwitch
deriving DecidableEq, Repr

/-- Values of `OfferingComponent.LimitPeriods`; the nullable/blank char
field is embedded as `Option LimitPeriod`. -/
inductive LimitPeriod
  | month
  | total
deriving DecidableEq, Repr

/-- Fields of `OfferingComponent` used by the embedded operations.
Nullable integer fields are `Option Int`. -/
structure OfferingComponentRec where
  ctype : String
  billingType : BillingType
  limitPeriod : Option LimitPeriod := none
  limitAmount : Option Int := none
  maxValue : Option Int := none
  minValue : Option Int := none
deriving DecidableEq, Repr

/-- An offering as seen by cost estimation: its type key, its components
and the per-component factors supplied by the plugin manager
(`Offering.component_factors`). -/
structure OfferingRec where
  otype : String
  components : List OfferingComponentRec
  factors : List (String × Rat)
deriving DecidableEq, Repr

/-- Key set of `Offering.get_limit_components()`: the types of the
offering's LIMIT-billed components (a Python dict key set; types are
unique per offering by the `('type', 'offering')` constraint, and only
the keys of the dict are consumed by `get_estimate`). -/
def limitTypes (o : OfferingRec) : List String :=
  ((o.components.filter (fun c => c.billingType = BillingType.limit)).map
    (fun c => c.ctype)).dedup

/-- One `PlanComponent` row joined with the billing type of its linked
offering component. -/
structure PlanComponentRec where
  ctype : String
  componentBilling : BillingType
  price : Rat
deriving DecidableEq, Repr

/-- Fields of `Plan` used by cost estimation: `unit_price` and the
related `PlanComponent` rows. -/
structure PlanRec where
  unitPrice : Rat
  components : List PlanComponentRec
deriving DecidableEq, Repr

/-- Python `component_prices.get(key, 0)` over
`{c.component.type: c.price for c in self.components.all()}`. -/
def pricesGet (cs : List PlanComponentRec) (k : String) : Rat :=
  match cs.find? (fun c => c.ctype = k) with
  | some c => c.price
  | none => 0

/-- Python `limits.get(key, 0)`. -/
def limitsGet (limits : List (String × Int)) (k : String) : Int :=
  match limits.find? (fun p => p.1 = k) with
  | some p => p.2
  | none => 0

/-- Python `factors.get(key, 1)` over the plugin component factors. -/
def factorsGet (fs : List (String × Rat)) (k : String) : Rat :=
  match fs.find? (fun p => p.1 = k) with
  | some p => p.2
  | none => 1

/-- Embedding of `Plan.get_estimate(limits)`: the cost starts at the plan
unit price; when the limits dict is non-empty, for each key of the
offering's LIMIT component map the cost is increased by
`price * limit / factor` with the dict-get defaults of the code. -/
def get_estimate (o : OfferingRec) (plan : PlanRec)
    (limits : List (String × Int)) : Rat :=
  if limits.isEmpty then plan.unitPrice
  else
    (limitTypes o).foldl
      (fun cost key =>
        cost + pricesGet plan.components key * (limitsGet limits key : Rat) /
          factorsGet o.factors key)
      plan.unitPrice

/-- Embedding of `Plan.sum_components(billing_type)`: sum of the prices of
the plan components whose offering component has the given billing type
(`Sum('price') or 0`; the empty sum is 0). -/
def sum_components (plan : PlanRec) (bt : BillingType) : Rat :=
  ((plan.components.filter (fun c => c.componentBilling = bt)).map
    (fun c => c.price)).sum

/-- Embedding of the `Plan.init_price` property (ONE_TIME components). -/
def init_price (plan : PlanRec) : Rat :=
  sum_components plan BillingType.oneTime

/-- Embedding of the `Plan.switch_price` property (ON_PLAN_SWITCH
components). -/
def switch_price (plan : PlanRec) : Rat :=
  sum_components plan BillingType.onPlanSwitch

/-- Values of `RequestTypeMixin.Types`. -/
inductive ReqType
  | create
  | update
  | terminate
deriving DecidableEq, Repr

/-- Embedding of `RequestTypeMixin.init_cost` (which first runs
`CostEstimateMixin.init_cost`): with no plan the cost field is left as it
was; with a plan the cost becomes the plan estimate, plus `init_price`
for a Create item or `switch_price` for an Update item (nothing is added
for a Terminate item). -/
def init_cost (o : OfferingRec) (rtype : ReqType) (plan : Option PlanRec)
    (limits : List (String × Int)) (prevCost : Option Rat) : Option Rat :=
  match plan with
  | none => prevCost
  | some p =>
      let base := get_estimate o p limits
      some (match rtype with
        | .create => base + init_price p
        | .update => base + switch_price p
        | .terminate => base)

/-- Sum of a foldl that only accumulates additions. -/
theorem foldl_add_eq_sum (f : α → Rat) (a : Rat) (l : List α) :
    l.foldl (fun c k => c + f k) a = a + (l.map f).sum := by
  induction l generalizing a with
  | nil => simp
  | cons x xs ih => simp [ih, add_assoc]

/-- Claim C5 counterexample: an order item of type Terminate that carries
a plan with unit price 5 (and no limit components) gets cost 5 from
`init_cost`, not 0 — the activation fee is skipped for Terminate items
but the plan estimate is still charged. -/
theorem C5_counterexample :
    init_cost ⟨"basic", [], []⟩ ReqType.terminate
        (some ⟨(5 : Rat), []⟩) [] none = some (5 : Rat)
    ∧ ((5 : Rat) ≠ (0 : Rat)) := by
  exact ⟨rfl, by norm_num⟩

/-- Claim C5 (amended): for every order item with a plan, `init_cost`
sets `cost` to the plan unit price plus the sum over the offering's LIMIT
component types of `componentPrice × requestedLimit / componentFactor`,
plus the plan's `init_price` when the item type is Create or the plan's
`switch_price` when the type is Update; a Terminate item receives no
activation fee (its cost is exactly the plan estimate, not 0). -/
theorem C5_cost_estimation (o : OfferingRec) (p : PlanRec)
    (rtype : ReqType) (limits : List (String × Int)) (prev : Option Rat) :
    init_cost o rtype (some p) limits prev =
      some (p.unitPrice +
        ((limitTypes o).map
          (fun key => pricesGet p.components key *
            (limitsGet limits key : Rat) / factorsGet o.factors key)).sum +
        (match rtype with
          | .create => init_price p
          | .update => switch_price p
          | .terminate => 0)) := by
  have hbase : get_estimate o p limits =
      p.unitPrice +
        ((limitTypes o).map
          (fun key => pricesGet p.components key *
            (limitsGet limits key : Rat) / factorsGet o.factors key)).sum := by
    unfold get_estimate
    by_cases h : limits.isEmpty
    · have hz : ∀ x ∈ (limitTypes o).map
          (fun key => pricesGet p.components key *
            (limitsGet limits key : Rat) / factorsGet o.factors key),
          x = 0 := by
        intro x hx
        rcases List.mem_map.mp hx with ⟨key, _, rfl⟩
        have : limits = [] := List.isEmpty_iff.mp h
        simp [this, limitsGet]
      simp [h, List.sum_eq_zero hz]
    · simp [h, foldl_add_eq_sum]
  unfold init_cost
  cases rtype <;> simp [hbase, add_assoc]

/-! ## Quota / limit ledger (`marketplace/models.py`,
`OfferingComponent.validate_amount`) -/

/-- Calendar date at billing granularity: an absolute month index and a
day-of-month (1-based).  `core_utils.month_start` maps a date to the
first day of its month. -/
structure DateMD where
  month : Nat
  day : Nat
deriving DecidableEq, Repr

/-- Embedding of `core_utils.month_start`. -/
def monthStart (d : DateMD) : DateMD := ⟨d.month, 1⟩

/-- One `ComponentUsage` row for a fixed resource × component pair, as
read by `validate_amount`. -/
structure UsageRow where
  date : DateMD
  usage : Int
deriving DecidableEq, Repr

/-- Embedding of `OfferingComponent.validate_amount(resource, amount,
date)`; `usages` are the `ComponentUsage` rows of the resource for this
component.  The method returns without effect when `limit_period` is
unset or `limit_amount` is unset or 0 (Python falsiness); otherwise it
sums the usage rows — restricted to rows dated at the month start of the
given date when `limit_period` is MONTH — and raises a validation error
when `total + amount > limit_amount`. -/
def validate_amount (comp : OfferingComponentRec) (usages : List UsageRow)
    (amount : Int) (d : DateMD) : Except String Unit :=
  match comp.limitPeriod, comp.limitAmount with
  | none, _ => .ok ()
  | some _, none => .ok ()
  | some p, some la =>
      if la = 0 then .ok ()
      else
        let rows :=
          if p = LimitPeriod.month then
            usages.filter (fun u => u.date = monthStart d)
          else usages
        let total := (rows.map (fun u => u.usage)).sum
        if total + amount > la then .error "Total amount exceeds limit."
        else .ok ()

/-- Consumed total as the claim words it: rows of the month of the given
date for MONTH, all rows for TOTAL. -/
def consumedTotal (p : LimitPeriod) (usages : List UsageRow) (d : DateMD) :
    Int :=
  match p with
  | .month =>
      ((usages.filter (fun u => u.date.month = d.month)).map
        (fun u => u.usage)).sum
  | .total => (usages.map (fun u => u.usage)).sum

/-- Claim C6: for usage rows recorded at month starts (the repository
stores limit-relevant usage dated at the billing-month start), a
component with no configured limit validates any amount without effect,
and a component with `limit_period` set and a nonzero `limit_amount`
accepts an amount exactly when the already-consumed total — monthly for
MONTH, lifetime for TOTAL — plus the amount does not exceed the limit. -/
theorem C6_limit_enforcement (comp : OfferingComponentRec)
    (usages : List UsageRow) (amount : Int) (d : DateMD)
    (hnorm : ∀ u ∈ usages, u.date.day = 1) :
    ((comp.limitPeriod = none ∨ comp.limitAmount = none
        ∨ comp.limitAmount = some 0) →
      validate_amount comp usages amount d = .ok ())
    ∧ (∀ p la, comp.limitPeriod = some p → comp.limitAmount = some la →
        la ≠ 0 →
        (validate_amount comp usages amount d = .ok ()
          ↔ consumedTotal p usages d + amount ≤ la)) := by
  constructor
  · rintro (h | h | h) <;>
      simp only [validate_amount, h] <;>
      cases hlp : comp.limitPeriod <;>
      cases hla : comp.limitAmount <;>
      simp_all [validate_amount]
  · intro p la hp hla hla0
    have hfilter : usages.filter (fun u => u.date = monthStart d) =
        usages.filter (fun u => u.date.month = d.month) := by
      apply List.filter_congr
      intro u hu
      have hd : u.date.day = 1 := hnorm u hu
      have hiff : (u.date = monthStart d) ↔ (u.date.month = d.month) := by
        constructor
        · intro h
          rw [h]
          rfl
        · intro h
          calc u.date = ⟨u.date.month, u.date.day⟩ := rfl
            _ = ⟨d.month, 1⟩ := by rw [h, hd]
      exact decide_eq_decide.mpr hiff
    have key : validate_amount comp usages amount d =
        if consumedTotal p usages d + amount > la then
          Except.error "Total amount exceeds limit."
        else Except.ok () := by
      cases p with
      | month => simp [validate_amount, hp, hla, hla0, hfilter, consumedTotal]
      | total => simp [validate_amount, hp, hla, hla0, consumedTotal]
    rw [key]
    by_cases hgt : consumedTotal p usages d + amount > la
    · rw [if_pos hgt]
      constructor
      · intro h
        exact absurd h (by simp)
      · intro h
        omega
    · rw [if_neg hgt]
      constructor
      · intro _
        omega
      · intro _
        rfl

/-- Claim C6 witness: a MONTH-limited component with limit 100 and 60
units already recorded in the month rejects a further 50 and accepts a
further 30. -/
theorem C6_witness :
    validate_amount ⟨"cores", .limit, some .month, some 100, none, none⟩
        [⟨⟨5, 1⟩, 60⟩] 50 ⟨5, 15⟩ ≠ .ok ()
    ∧ validate_amount ⟨"cores", .limit, some .month, some 100, none, none⟩
        [⟨⟨5, 1⟩, 60⟩] 30 ⟨5, 15⟩ = .ok () :=
  ⟨fun h => absurd
      (((C6_limit_enforcement
          ⟨"cores", .limit, some .month, some 100, none, none⟩
          [⟨⟨5, 1⟩, 60⟩] 50 ⟨5, 15⟩ (by decide)).2
        LimitPeriod.month 100 rfl rfl (by decide)).mp h)
      (by decide),
    ((C6_limit_enforcement
          ⟨"cores", .limit, some .month, some 100, none, none⟩
          [⟨⟨5, 1⟩, 60⟩] 30 ⟨5, 15⟩ (by decide)).2
        LimitPeriod.month 100 rfl rfl (by decide)).mpr (by decide)⟩

/-! ## Limit update validation (`marketplace/utils.py`, `validate_limits`) -/

/-- The offering's LIMIT-billed components (the queryset behind
`valid_component_types`). -/
def limitComponents (o : OfferingRec) : List OfferingComponentRec :=
  o.components.filter (fun c => c.billingType = BillingType.limit)

/-- The queryset behind `components_map`:
`offering.components.filter(type__in=valid_component_types)`. -/
def componentsMapList (o : OfferingRec) : List OfferingComponentRec :=
  o.components.filter
    (fun c => (limitComponents o).any (fun lc => lc.ctype = c.ctype))

/-- Python `component.max_value and value > component.max_value`
(`max_value` is falsy when NULL or 0). -/
def maxViolated (c : OfferingComponentRec) (v : Int) : Bool :=
  match c.maxValue with
  | some m => m ≠ 0 && v > m
  | none => false

/-- Python `component.min_value and value < component.min_value`. -/
def minViolated (c : OfferingComponentRec) (v : Int) : Bool :=
  match c.minValue with
  | some m => m ≠ 0 && v < m
  | none => false

/-- The `for key, value in limits.items()` loop of `validate_limits`:
looks each key up in `components_map` (a dict keyed by component type;
`continue` when absent) and raises on a max- or min-bound violation. -/
def checkLimitBounds (comps : List OfferingComponentRec) :
    List (String × Int) → Except String Unit
  | [] => .ok ()
  | kv :: rest =>
      match comps.find? (fun c => c.ctype = kv.1) with
      | none => checkLimitBounds comps rest
      | some c =>
          if maxViolated c kv.2 then
            .error "The limit value cannot be more than the maximum."
          else if minViolated c kv.2 then
            .error "The limit value cannot be less than the minimum."
          else checkLimitBounds comps rest

/-- Embedding of `utils.validate_limits(limits, offering)`:
rejects when the offering's plugin does not support limit updates, when a
requested key is not among the LIMIT component types, or when a requested
value violates a component's configured nonzero max/min bound. -/
def validate_limits (canUpdateLimits : Bool) (o : OfferingRec)
    (limits : List (String × Int)) : Except String Unit :=
  if !canUpdateLimits then
    .error "Limits update is not supported for this resource."
  else
    let validTypes := (limitComponents o).map (fun c => c.ctype)
    if limits.any (fun kv => !(validTypes.contains kv.1)) then
      .error "Invalid types"
    else checkLimitBounds (componentsMapList o) limits

/-- Rejection condition of claim C10, in the claim's own terms. -/
def limitsRejected (canUpdateLimits : Bool) (o : OfferingRec)
    (limits : List (String × Int)) : Prop :=
  canUpdateLimits = false
  ∨ (∃ kv ∈ limits,
      kv.1 ∉ (limitComponents o).map (fun c => c.ctype))
  ∨ (∃ kv ∈ limits, ∃ c ∈ limitComponents o, c.ctype = kv.1 ∧
      ((∃ m, c.maxValue = some m ∧ m ≠ 0 ∧ kv.2 > m)
        ∨ (∃ m, c.minValue = some m ∧ m ≠ 0 ∧ kv.2 < m)))

/-- Error condition of the bounds loop. -/
theorem checkLimitBounds_error_iff (comps : List OfferingComponentRec)
    (l : List (String × Int)) :
    (∃ msg, checkLimitBounds comps l = .error msg) ↔
      ∃ kv ∈ l, ∃ c, comps.find? (fun c2 => c2.ctype = kv.1) = some c ∧
        (maxViolated c kv.2 = true ∨ minViolated c kv.2 = true) := by
  induction l with
  | nil => simp [checkLimitBounds]
  | cons kv rest ih =>
      cases hf : comps.find? (fun c2 => c2.ctype = kv.1) with
      | none =>
          simp only [checkLimitBounds, hf, ih, List.mem_cons]
          constructor
          · rintro ⟨kv2, hkv2, hc⟩
            exact ⟨kv2, Or.inr hkv2, hc⟩
          · rintro ⟨kv2, hkv2 | hkv2, hc⟩
            · rcases hc with ⟨c, hc1, _⟩
              rw [hkv2] at hc1
              rw [hf] at hc1
              cases hc1
            · exact ⟨kv2, hkv2, hc⟩
      | some c =>
          by_cases hmax : maxViolated c kv.2 = true
          · simp only [checkLimitBounds, hf, if_pos hmax]
            constructor
            · intro _
              exact ⟨kv, List.mem_cons_self kv rest, c, hf, Or.inl hmax⟩
            · intro _
              exact ⟨"The limit value cannot be more than the maximum.", rfl⟩
          · by_cases hmin : minViolated c kv.2 = true
            · simp only [checkLimitBounds, hf, if_neg hmax, if_pos hmin]
              constructor
              · intro _
                exact ⟨kv, List.mem_cons_self kv rest, c, hf, Or.inr hmin⟩
              · intro _
                exact ⟨"The limit value cannot be less than the minimum.",
                  rfl⟩
            · simp only [checkLimitBounds, hf, if_neg hmax, if_neg hmin, ih,
                List.mem_cons]
              constructor
              · rintro ⟨kv2, hkv2, hc⟩
                exact ⟨kv2, Or.inr hkv2, hc⟩
              · rintro ⟨kv2, hkv2 | hkv2, hc⟩
                · subst hkv2
                  rcases hc with ⟨c2, hc1, hviol⟩
                  rw [hf] at hc1
                  injection hc1 with hcc
                  subst hcc
                  cases hviol with
                  | inl h => exact absurd h hmax
                  | inr h => exact absurd h hmin
                · exact ⟨kv2, hkv2, hc⟩

/-- With component types unique per offering (`unique_together ('type',
'offering')`), `components_map` holds exactly the LIMIT components. -/
theorem componentsMapList_eq (o : OfferingRec)
    (hnodup : (o.components.map (fun c => c.ctype)).Nodup) :
    componentsMapList o = limitComponents o := by
  unfold componentsMapList
  apply List.filter_congr
  intro c hc
  rw [Bool.eq_iff_iff]
  simp only [List.any_eq_true, decide_eq_true_eq]
  constructor
  · rintro ⟨lc, hlcmem, hlctype⟩
    have hbill : lc.billingType = BillingType.limit :=
      of_decide_eq_true (List.mem_filter.mp hlcmem).2
    have heq : lc = c :=
      List.inj_on_of_nodup_map hnodup
        (List.mem_filter.mp hlcmem).1 hc hlctype
    rw [← heq]
    exact hbill
  · intro h
    exact ⟨c, List.mem_filter.mpr ⟨hc, decide_eq_true h⟩, rfl⟩

/-- A key lookup in the LIMIT component map, under per-offering type
uniqueness, finds exactly the member component of that type. -/
theorem find_limit_eq_some_iff (o : OfferingRec)
    (hnodup : (o.components.map (fun c => c.ctype)).Nodup) (k : String)
    (c : OfferingComponentRec) :
    (limitComponents o).find? (fun c2 => c2.ctype = k) = some c ↔
      c ∈ limitComponents o ∧ c.ctype = k := by
  constructor
  · intro h
    have hp := List.find?_some h
    exact ⟨List.mem_of_find?_eq_some h, by simpa using hp⟩
  · rintro ⟨hmem, hk⟩
    have hsome : ((limitComponents o).find? (fun c2 => c2.ctype = k)).isSome := by
      rw [List.find?_isSome]
      exact ⟨c, hmem, decide_eq_true hk⟩
    rcases Option.isSome_iff_exists.mp hsome with ⟨c2, hc2⟩
    have hc2mem := List.mem_of_find?_eq_some hc2
    have hp2 := List.find?_some hc2
    have hc2k : c2.ctype = k := by simpa using hp2
    have hsub : limitComponents o ⊆ o.components :=
      List.filter_subset' o.components
    have hcc : c2 = c :=
      List.inj_on_of_nodup_map hnodup (hsub hc2mem) (hsub hmem)
        (by rw [hc2k, hk])
    rw [hc2, hcc]

/-- Claim C10: `validate_limits(limits, offering)` raises a validation
error exactly when the offering's plugin does not support limit updates,
or some requested key is not the type of a LIMIT-billed component of the
offering, or some requested value exceeds a component's nonzero
`max_value` or is below its nonzero `min_value`; a bound that is unset or
0 imposes no constraint.  Component types are unique per offering
(`unique_together ('type', 'offering')`). -/
theorem C10_validate_limits (cu : Bool) (o : OfferingRec)
    (limits : List (String × Int))
    (hnodup : (o.components.map (fun c => c.ctype)).Nodup) :
    (∃ msg, validate_limits cu o limits = .error msg)
      ↔ limitsRejected cu o limits := by
  cases cu with
  | false =>
      constructor
      · intro _
        exact Or.inl rfl
      · intro _
        exact ⟨"Limits update is not supported for this resource.", rfl⟩
  | true =>
      have h1 : validate_limits true o limits =
          (if limits.any
              (fun kv =>
                !(((limitComponents o).map (fun c => c.ctype)).contains kv.1))
              = true then
            Except.error "Invalid types"
          else checkLimitBounds (componentsMapList o) limits) := rfl
      by_cases hinv : limits.any
          (fun kv =>
            !(((limitComponents o).map (fun c => c.ctype)).contains kv.1)) = true
      · constructor
        · intro _
          rcases List.any_eq_true.mp hinv with ⟨kv, hkvmem, hkv⟩
          refine Or.inr (Or.inl ⟨kv, hkvmem, ?_⟩)
          intro hmem
          rw [Bool.not_eq_true'] at hkv
          exact absurd hmem (by simpa using hkv)
        · intro _
          exact ⟨"Invalid types", by rw [h1, if_pos hinv]⟩
      · have hred : validate_limits true o limits =
            checkLimitBounds (componentsMapList o) limits := by
          rw [h1, if_neg hinv]
        rw [hred, componentsMapList_eq o hnodup,
          checkLimitBounds_error_iff]
        constructor
        · rintro ⟨kv, hkvmem, c, hfind, hviol⟩
          rcases (find_limit_eq_some_iff o hnodup kv.1 c).mp hfind with
            ⟨hcmem, hck⟩
          refine Or.inr (Or.inr ⟨kv, hkvmem, c, hcmem, hck, ?_⟩)
          cases hviol with
          | inl h =>
              left
              unfold maxViolated at h
              cases hmv : c.maxValue with
              | none => rw [hmv] at h; cases h
              | some m =>
                  rw [hmv] at h
                  rcases (Bool.and_eq_true _ _).mp h with ⟨h1, h2⟩
                  exact ⟨m, rfl, by simpa using of_decide_eq_true h1,
                    of_decide_eq_true h2⟩
          | inr h =>
              right
              unfold minViolated at h
              cases hmv : c.minValue with
              | none => rw [hmv] at h; cases h
              | some m =>
                  rw [hmv] at h
                  rcases (Bool.and_eq_true _ _).mp h with ⟨h1, h2⟩
                  exact ⟨m, rfl, by simpa using of_decide_eq_true h1,
                    of_decide_eq_true h2⟩
        · rintro (hcu | hbad | ⟨kv, hkvmem, c, hcmem, hck, hviol⟩)
          · cases hcu
          · exfalso
            apply hinv
            rcases hbad with ⟨kv, hkvmem, hkv⟩
            rw [List.any_eq_true]
            exact ⟨kv, hkvmem, by simpa using hkv⟩
          · refine ⟨kv, hkvmem, c,
              (find_limit_eq_some_iff o hnodup kv.1 c).mpr ⟨hcmem, hck⟩, ?_⟩
            cases hviol with
            | inl h =>
                rcases h with ⟨m, hm, hm0, hgt⟩
                left
                unfold maxViolated
                rw [hm]
                exact (Bool.and_eq_true _ _).mpr
                  ⟨by simpa using hm0, decide_eq_true hgt⟩
            | inr h =>
                rcases h with ⟨m, hm, hm0, hlt⟩
                right
                unfold minViolated
                rw [hm]
                exact (Bool.and_eq_true _ _).mpr
                  ⟨by simpa using hm0, decide_eq_true hlt⟩

/-- Claim C10 witness: an offering with one LIMIT component `cores`
bounded by `max_value=16` rejects the requested limits `{cores: 20}`. -/
theorem C10_witness :
    ∃ msg, validate_limits true
        ⟨"vm-basic", [⟨"cores", .limit, none, none, some 16, none⟩], []⟩
        [("cores", 20)] = .error msg :=
  (C10_validate_limits true
      ⟨"vm-basic", [⟨"cores", .limit, none, none, some 16, none⟩], []⟩
      [("cores", 20)] (by decide)).mpr
    (Or.inr (Or.inr ⟨("cores", 20), by decide,
      ⟨"cores", .limit, none, none, some 16, none⟩, by decide, rfl,
      Or.inl ⟨16, rfl, by decide, by decide⟩⟩))

/-! ## Association-table upsert (the embedding of Django's
`update_or_create` used by the usage rollup) -/

/-- Overwrite the first row with the given key, or append a new row
(`update_or_create` against a table with a unique key). -/
def upsert {K V : Type} [DecidableEq K] (k : K) (v : V) :
    List (K × V) → List (K × V)
  | [] => [(k, v)]
  | (k2, v2) :: rest =>
      if k2 = k then (k, v) :: rest else (k2, v2) :: upsert k v rest

/-- First-match key lookup in an association table. -/
def lookupKV {K V : Type} [DecidableEq K] (k : K) :
    List (K × V) → Option V
  | [] => none
  | (k2, v2) :: rest => if k2 = k then some v2 else lookupKV k rest

/-- Upsert a batch of rows in order. -/
def upsertAll {K V : Type} [DecidableEq K] (pairs : List (K × V))
    (t : List (K × V)) : List (K × V) :=
  pairs.foldl (fun t2 p => upsert p.1 p.2 t2) t

theorem lookupKV_upsert_self {K V : Type} [DecidableEq K] (k : K) (v : V)
    (t : List (K × V)) : lookupKV k (upsert k v t) = some v := by
  induction t with
  | nil => simp [upsert, lookupKV]
  | cons p rest ih =>
      obtain ⟨k2, v2⟩ := p
      by_cases h : k2 = k
      · simp [upsert, h, lookupKV]
      · simp [upsert, h, lookupKV, ih]

theorem lookupKV_upsert_ne {K V : Type} [DecidableEq K] {k k2 : K} (v : V)
    (t : List (K × V)) (h : k2 ≠ k) :
    lookupKV k2 (upsert k v t) = lookupKV k2 t := by
  have hne : ¬(k = k2) := fun hh => h hh.symm
  induction t with
  | nil =>
      simp only [upsert, lookupKV]
      rw [if_neg hne]
  | cons p rest ih =>
      obtain ⟨k3, v3⟩ := p
      by_cases h3 : k3 = k
      · subst h3
        simp only [upsert, if_pos rfl, lookupKV]
        rw [if_neg hne, if_neg hne]
      · simp only [upsert, if_neg h3, lookupKV]
        by_cases h2 : k3 = k2
        · rw [if_pos h2, if_pos h2]
        · rw [if_neg h2, if_neg h2, ih]

theorem upsert_eq_of_lookup {K V : Type} [DecidableEq K] {k : K} {v : V}
    {t : List (K × V)} (h : lookupKV k t = some v) : upsert k v t = t := by
  induction t with
  | nil => simp [lookupKV] at h
  | cons p rest ih =>
      obtain ⟨k2, v2⟩ := p
      by_cases hk : k2 = k
      · subst hk
        rw [lookupKV, if_pos rfl] at h
        injection h with hv
        simp [upsert, hv]
      · rw [lookupKV, if_neg hk] at h
        simp [upsert, hk, ih h]

theorem mem_keys_upsert {K V : Type} [DecidableEq K] (k x : K) (v : V)
    (t : List (K × V)) :
    x ∈ (upsert k v t).map Prod.fst ↔ x = k ∨ x ∈ t.map Prod.fst := by
  induction t with
  | nil => simp [upsert]
  | cons p rest ih =>
      obtain ⟨k2, v2⟩ := p
      by_cases hk : k2 = k
      · subst hk
        simp [upsert]
      · simp only [upsert, if_neg hk, List.map_cons, List.mem_cons, ih]
        tauto

theorem upsert_keys_nodup {K V : Type} [DecidableEq K] (k : K) (v : V)
    (t : List (K × V)) (h : (t.map Prod.fst).Nodup) :
    ((upsert k v t).map Prod.fst).Nodup := by
  induction t with
  | nil => simp [upsert]
  | cons p rest ih =>
      obtain ⟨k2, v2⟩ := p
      simp only [List.map_cons, List.nodup_cons] at h
      by_cases hk : k2 = k
      · subst hk
        have hrw : upsert k2 v ((k2, v2) :: rest) = (k2, v) :: rest := by
          simp [upsert]
        rw [hrw]
        simp only [List.map_cons, List.nodup_cons]
        exact h
      · simp only [upsert, if_neg hk, List.map_cons, List.nodup_cons]
        constructor
        · intro hmem
          rcases (mem_keys_upsert k k2 v rest).mp hmem with hkk | hmem2
          · exact hk hkk
          · exact h.1 hmem2
        · exact ih h.2

theorem upsertAll_keys_nodup {K V : Type} [DecidableEq K]
    (pairs : List (K × V)) (t : List (K × V))
    (h : (t.map Prod.fst).Nodup) :
    ((upsertAll pairs t).map Prod.fst).Nodup := by
  induction pairs generalizing t with
  | nil => exact h
  | cons p rest ih =>
      exact ih (upsert p.1 p.2 t) (upsert_keys_nodup p.1 p.2 t h)

theorem lookupKV_upsertAll_not_mem {K V : Type} [DecidableEq K]
    {pairs : List (K × V)} {k : K} (hk : k ∉ pairs.map Prod.fst)
    (t : List (K × V)) :
    lookupKV k (upsertAll pairs t) = lookupKV k t := by
  induction pairs generalizing t with
  | nil => rfl
  | cons p rest ih =>
      simp only [List.map_cons, List.mem_cons, not_or] at hk
      have h1 := ih (fun hm => hk.2 hm) (upsert p.1 p.2 t)
      rw [upsertAll] at h1 ⊢
      rw [List.foldl_cons, h1, lookupKV_upsert_ne p.2 t hk.1]

theorem lookupKV_upsertAll_of_mem {K V : Type} [DecidableEq K]
    {pairs : List (K × V)} (hnodup : (pairs.map Prod.fst).Nodup)
    {k : K} {v : V} (hmem : (k, v) ∈ pairs) (t : List (K × V)) :
    lookupKV k (upsertAll pairs t) = some v := by
  induction pairs generalizing t with
  | nil => cases hmem
  | cons p rest ih =>
      obtain ⟨k2, v2⟩ := p
      simp only [List.map_cons, List.nodup_cons] at hnodup
      rw [upsertAll, List.foldl_cons]
      rcases List.mem_cons.mp hmem with heq | hmem2
      · have hk : k = k2 := congrArg Prod.fst heq
        have hv : v = v2 := congrArg Prod.snd heq
        subst hk
        subst hv
        have hnm : k ∉ rest.map Prod.fst := hnodup.1
        rw [show rest.foldl (fun t2 p2 => upsert p2.1 p2.2 t2)
            (upsert k v t) = upsertAll rest (upsert k v t) from rfl]
        rw [lookupKV_upsertAll_not_mem hnm, lookupKV_upsert_self]
      · exact ih hnodup.2 hmem2 (upsert k2 v2 t)

theorem upsertAll_eq_of_lookup {K V : Type} [DecidableEq K]
    (pairs t : List (K × V))
    (h : ∀ p ∈ pairs, lookupKV p.1 t = some p.2) :
    upsertAll pairs t = t := by
  induction pairs with
  | nil => rfl
  | cons p rest ih =>
      rw [upsertAll, List.foldl_cons,
        upsert_eq_of_lookup (h p (List.mem_cons_self p rest))]
      exact ih fun q hq => h q (List.mem_cons_of_mem p hq)

theorem upsertAll_idem {K V : Type} [DecidableEq K]
    (pairs t : List (K × V)) (hnodup : (pairs.map Prod.fst).Nodup) :
    upsertAll pairs (upsertAll pairs t) = upsertAll pairs t :=
  upsertAll_eq_of_lookup pairs (upsertAll pairs t) fun _ hp =>
    lookupKV_upsertAll_of_mem hnodup hp t

/-! ## Usage rollup (`marketplace/tasks.py`, `aggregate_reported_usage`,
`aggregate_fixed_usage`, `calculate_usage_for_scope`) -/

/-- A rollup scope: `filter_aggregate_by_scope` filters by project for a
Project scope and by the project's customer for a Customer scope. -/
inductive AggScope
  | project (id : Nat)
  | customer (id : Nat)
deriving DecidableEq, Repr

/-- Embedding of `filter_aggregate_by_scope` applied to a row owned by
the given project / customer. -/
def scopeMatches (s : AggScope) (projectId customerId : Nat) : Bool :=
  match s with
  | .project i => projectId = i
  | .customer i => customerId = i

/-- One `ComponentUsage` row, as read by `aggregate_reported_usage`:
its owning project/customer, the `component.parent_id` (nullable), the
usage date (a day index) and the reported usage. -/
structure CompUsageRow where
  projectId : Nat
  customerId : Nat
  parentId : Option Nat
  date : Nat
  usage : Int
deriving DecidableEq, Repr

/-- Embedding of `aggregate_reported_usage(start, end, scope)`:
`ComponentUsage` rows with `date` in `[start, end]`, excluding rows whose
component has no parent, filtered to the scope, grouped by
`component.parent_id` with `Sum('usage')`.  The Python dict is embedded
as an association list over the distinct parent ids. -/
def aggregate_reported_usage (start e : Nat) (s : AggScope)
    (rows : List CompUsageRow) : List (Nat × Int) :=
  let filtered := rows.filter
    (fun r => decide (start ≤ r.date) && decide (r.date ≤ e)
      && !r.parentId.isNone && scopeMatches s r.projectId r.customerId)
  let keys := (filtered.filterMap (fun r => r.parentId)).dedup
  keys.map (fun k =>
    (k, ((filtered.filter (fun r => r.parentId = some k)).map
      (fun r => r.usage)).sum))

/-- One `ResourcePlanPeriod` row joined to its plan's components: each
entry of `components` carries the plan component's offering component
`parent_id` (nullable) and the plan component `amount`. -/
structure PlanPeriodRow where
  projectId : Nat
  customerId : Nat
  pstart : Option Nat
  pend : Option Nat
  components : List (Option Nat × Int)
deriving DecidableEq, Repr

/-- The Q-filter of `aggregate_fixed_usage`: period started and ended
inside the window, or is still open, or ended inside the window. -/
def periodOverlaps (start e : Nat) (p : PlanPeriodRow) : Bool :=
  (match p.pstart, p.pend with
    | some s0, some e0 => decide (start ≤ s0) && decide (e0 ≤ e)
    | _, _ => false)
  || p.pend.isNone
  || (match p.pend with
      | some e0 => decide (start ≤ e0) && decide (e0 ≤ e)
      | none => false)

/-- Embedding of `aggregate_fixed_usage(start, end, scope)`: overlapping
plan periods in scope, joined to their plan components, grouped by the
component's `parent_id` (which may be NULL) with `Sum('amount')`. -/
def aggregate_fixed_usage (start e : Nat) (s : AggScope)
    (periods : List PlanPeriodRow) : List (Option Nat × Int) :=
  let joined := ((periods.filter
    (fun p => periodOverlaps start e p
      && scopeMatches s p.projectId p.customerId)).map
    (fun p => p.components)).flatten
  let keys := (joined.map Prod.fst).dedup
  keys.map (fun k =>
    (k, ((joined.filter (fun r => r.1 = k)).map Prod.snd).sum))

/-- Key and value of one `CategoryComponentUsage` row: keyed by (scope,
component id, period start), holding the reported and fixed figures
(both nullable). -/
abbrev CCUKey := AggScope × Nat × Nat

abbrev CCUVal := Option Int × Option Int

/-- The key set iterated by `calculate_usage_for_scope`: the union of the
reported keys and the fixed keys with the `None` key dropped
(`fixed_usage.pop(None, None)`). -/
def rollupComponents (start e : Nat) (s : AggScope)
    (rows : List CompUsageRow) (periods : List PlanPeriodRow) : List Nat :=
  ((aggregate_reported_usage start e s rows).map Prod.fst
    ++ ((aggregate_fixed_usage start e s periods).filter
        (fun p => !p.1.isNone)).filterMap Prod.fst).dedup

/-- Embedding of `calculate_usage_for_scope(start, end, scope)`: for each
component id in the union of the two aggregate key sets (with the `None`
fixed key popped), `update_or_create` one `CategoryComponentUsage` row
keyed by (scope, component, start) whose defaults are the two aggregate
dict-gets. -/
def calculate_usage_for_scope (start e : Nat) (s : AggScope)
    (rows : List CompUsageRow) (periods : List PlanPeriodRow)
    (table : List (CCUKey × CCUVal)) : List (CCUKey × CCUVal) :=
  let reported := aggregate_reported_usage start e s rows
  let fixed := (aggregate_fixed_usage start e s periods).filter
    (fun p => !p.1.isNone)
  upsertAll ((rollupComponents start e s rows periods).map
    (fun k => ((s, k, start),
      (lookupKV k reported, lookupKV (some k) fixed)))) table

/-- Claim C7: `calculate_usage_for_scope` is idempotent — over unchanged
`ComponentUsage` and `ResourcePlanPeriod` data, running it twice yields
the same table as running it once; the table keeps one row per (scope,
component, start) key (no duplicates, starting from a table satisfying
the unique constraint); and the set of upserted component keys is the
union of the reported-usage and fixed-usage key sets with the `None` key
dropped. -/
theorem C7_idempotent_rollup (start e : Nat) (s : AggScope)
    (rows : List CompUsageRow) (periods : List PlanPeriodRow)
    (table : List (CCUKey × CCUVal))
    (hnodup : (table.map Prod.fst).Nodup) :
    calculate_usage_for_scope start e s rows periods
        (calculate_usage_for_scope start e s rows periods table)
      = calculate_usage_for_scope start e s rows periods table
    ∧ (((calculate_usage_for_scope start e s rows periods table).map
        Prod.fst).Nodup)
    ∧ (∀ k : Nat, k ∈ rollupComponents start e s rows periods
        ↔ (k ∈ (aggregate_reported_usage start e s rows).map Prod.fst
          ∨ some k ∈ (aggregate_fixed_usage start e s periods).map
              Prod.fst)) := by
  have hcomps : (rollupComponents start e s rows periods).Nodup :=
    List.nodup_dedup _
  have hinj : Function.Injective
      (fun k : Nat => ((s, k, start) : CCUKey)) := by
    intro a b hab
    have := congrArg (fun x : CCUKey => x.2.1) hab
    simpa using this
  have hkeys : (((rollupComponents start e s rows periods).map
      (fun k => ((s, k, start),
        (lookupKV k (aggregate_reported_usage start e s rows),
          lookupKV (some k)
            ((aggregate_fixed_usage start e s periods).filter
              (fun p => !p.1.isNone)))))).map Prod.fst).Nodup := by
    rw [List.map_map]
    exact List.Nodup.map hinj hcomps
  refine ⟨?_, ?_, ?_⟩
  · exact upsertAll_idem _ table hkeys
  · exact upsertAll_keys_nodup _ table hnodup
  · intro k
    unfold rollupComponents
    rw [List.mem_dedup, List.mem_append]
    constructor
    · rintro (h | h)
      · exact Or.inl h
      · rcases List.mem_filterMap.mp h with ⟨p, hpmem, hpk⟩
        exact Or.inr
          (List.mem_map.mpr ⟨p, (List.mem_filter.mp hpmem).1, hpk⟩)
    · rintro (h | h)
      · exact Or.inl h
      · rcases List.mem_map.mp h with ⟨p, hpmem, hpk⟩
        refine Or.inr (List.mem_filterMap.mpr
          ⟨p, List.mem_filter.mpr ⟨hpmem, ?_⟩, hpk⟩)
        rw [hpk]
        rfl

/-- Claim C7 witness: a concrete one-row dataset rolled up twice into an
empty table. -/
theorem C7_witness :
    calculate_usage_for_scope 0 30 (AggScope.customer 1)
        [⟨1, 1, some 7, 5, 42⟩] []
        (calculate_usage_for_scope 0 30 (AggScope.customer 1)
          [⟨1, 1, some 7, 5, 42⟩] [] [])
      = calculate_usage_for_scope 0 30 (AggScope.customer 1)
          [⟨1, 1, some 7, 5, 42⟩] [] []
    ∧ (((calculate_usage_for_scope 0 30 (AggScope.customer 1)
        [⟨1, 1, some 7, 5, 42⟩] [] []).map Prod.fst).Nodup)
    ∧ (∀ k : Nat, k ∈ rollupComponents 0 30 (AggScope.customer 1)
        [⟨1, 1, some 7, 5, 42⟩] []
        ↔ (k ∈ (aggregate_reported_usage 0 30 (AggScope.customer 1)
            [⟨1, 1, some 7, 5, 42⟩]).map Prod.fst
          ∨ some k ∈ (aggregate_fixed_usage 0 30 (AggScope.customer 1)
              []).map Prod.fst)) :=
  C7_idempotent_rollup 0 30 (AggScope.customer 1)
    [⟨1, 1, some 7, 5, 42⟩] [] [] List.nodup_nil

/-! ## Invoice item quantity / component usage synchronization
(`invoices/serializers.py`, `InvoiceItemUpdateSerializer.update`) -/

/-- One `PlanComponent` row as read by the invoice item update: its
primary key, the linked offering component's id and billing type. -/
structure PlanComponentRow where
  id : Nat
  componentId : Nat
  componentBilling : BillingType
deriving DecidableEq, Repr

/-- One `ComponentUsage` row as read by the invoice item update: primary
key, resource, component, billing-period year/month, usage date and
value. -/
structure ComponentUsageRow where
  id : Nat
  resourceId : Nat
  componentId : Nat
  byear : Nat
  bmonth : Nat
  date : Nat
  usage : Int
deriving DecidableEq, Repr

/-- Fields of an `InvoiceItem` read by the update: the (nullable)
marketplace resource, `details['plan_component_id']`, the invoice's
year/month, and the quantity being edited. -/
structure InvoiceItemRow where
  resourceId : Option Nat
  planComponentId : Option Nat
  invYear : Nat
  invMonth : Nat
  quantity : Int
deriving DecidableEq, Repr

/-- The queryset
`ComponentUsage.objects.filter(resource=..., component=...,
billing_period__year=..., billing_period__month=...)`. -/
def matchingUsages (usages : List ComponentUsageRow) (rid cid y m : Nat) :
    List ComponentUsageRow :=
  usages.filter
    (fun u => decide (u.resourceId = rid) && decide (u.componentId = cid)
      && decide (u.byear = y) && decide (u.bmonth = m))

/-- One step of `.order_by('date').last()`: keep the later-dated row,
preferring the later row in queryset order on a date tie (a stable
ascending sort puts it last). -/
def latestStep (acc : Option ComponentUsageRow) (u : ComponentUsageRow) :
    Option ComponentUsageRow :=
  match acc with
  | none => some u
  | some b => if b.date ≤ u.date then some u else some b

/-- Embedding of `.order_by('date').last()` on the matching usages. -/
def latestUsage (l : List ComponentUsageRow) : Option ComponentUsageRow :=
  l.foldl latestStep none

/-- Embedding of `InvoiceItemUpdateSerializer.update(instance,
validated_data)` restricted to the fields it touches: with no quantity in
the payload nothing billing-related happens; otherwise the quantity edit
requires a resource, a `plan_component_id` detail, an existing
usage-billed plan component and a matching `ComponentUsage` row, whose
usage value is overwritten with the new quantity (each check raises a
`ValidationError` before anything is mutated). -/
def update_invoice_item (pcs : List PlanComponentRow)
    (usages : List ComponentUsageRow) (item : InvoiceItemRow)
    (quantity : Option Int) :
    Except String (List ComponentUsageRow × InvoiceItemRow) :=
  match quantity with
  | none => .ok (usages, item)
  | some q =>
      match item.resourceId with
      | none => .error "Marketplace resource is not defined in invoice item."
      | some rid =>
          match item.planComponentId with
          | none =>
              .error "Plan component is not defined in invoice item details."
          | some pcid =>
              match pcs.find? (fun p2 => p2.id = pcid) with
              | none => .error "Related plan component is not found."
              | some pc =>
                  if pc.componentBilling ≠ BillingType.usage then
                    .error "Offering component is not usage-based."
                  else
                    match latestUsage (matchingUsages usages rid
                        pc.componentId item.invYear item.invMonth) with
                    | none => .error "Component usage is not found."
                    | some cu =>
                        .ok (usages.map (fun u =>
                            if u.id = cu.id then { u with usage := q }
                            else u),
                          { item with quantity := q })

/-- A quantity edit can go through: the item has a resource and a plan
component link, the plan component exists and is usage-billed, and a
matching usage row for the invoice's billing month exists. -/
def usageEditable (pcs : List PlanComponentRow)
    (usages : List ComponentUsageRow) (item : InvoiceItemRow) : Prop :=
  ∃ rid pcid pc, item.resourceId = some rid
    ∧ item.planComponentId = some pcid
    ∧ pcs.find? (fun p2 => p2.id = pcid) = some pc
    ∧ pc.componentBilling = BillingType.usage
    ∧ matchingUsages usages rid pc.componentId item.invYear item.invMonth
        ≠ []

theorem latestUsage_go (l : List ComponentUsageRow)
    (b : ComponentUsageRow) :
    ∃ c, l.foldl latestStep (some b) = some c ∧ (c = b ∨ c ∈ l)
      ∧ b.date ≤ c.date ∧ ∀ u ∈ l, u.date ≤ c.date := by
  induction l generalizing b with
  | nil => exact ⟨b, rfl, Or.inl rfl, le_refl _, by simp⟩
  | cons x xs ih =>
      by_cases h : b.date ≤ x.date
      · rcases ih x with ⟨c, hc, hmem, hbc, hall⟩
        refine ⟨c, ?_, ?_, le_trans h hbc, ?_⟩
        · rw [List.foldl_cons]
          rw [show latestStep (some b) x = some x by
            simp [latestStep, h]]
          exact hc
        · rcases hmem with hcb | hcm
          · exact Or.inr (hcb ▸ List.mem_cons_self x xs)
          · exact Or.inr (List.mem_cons_of_mem x hcm)
        · intro u hu
          rcases List.mem_cons.mp hu with hux | huxs
          · exact hux ▸ hbc
          · exact hall u huxs
      · rcases ih b with ⟨c, hc, hmem, hbc, hall⟩
        refine ⟨c, ?_, ?_, hbc, ?_⟩
        · rw [List.foldl_cons]
          rw [show latestStep (some b) x = some b by
            simp [latestStep, h]]
          exact hc
        · rcases hmem with hcb | hcm
          · exact Or.inl hcb
          · exact Or.inr (List.mem_cons_of_mem x hcm)
        · intro u hu
          rcases List.mem_cons.mp hu with hux | huxs
          · subst hux
            have := not_le.mp h
            exact le_trans (le_of_lt this) hbc
          · exact hall u huxs

theorem latestUsage_spec (l : List ComponentUsageRow)
    (hne : l ≠ []) :
    ∃ c, latestUsage l = some c ∧ c ∈ l ∧ ∀ u ∈ l, u.date ≤ c.date := by
  cases l with
  | nil => exact absurd rfl hne
  | cons x xs =>
      rcases latestUsage_go xs x with ⟨c, hc, hmem, hbc, hall⟩
      refine ⟨c, ?_, ?_, ?_⟩
      · rw [latestUsage, List.foldl_cons]
        exact hc
      · rcases hmem with hcb | hcm
        · exact hcb ▸ List.mem_cons_self x xs
        · exact List.mem_cons_of_mem x hcm
      · intro u hu
        rcases List.mem_cons.mp hu with hux | huxs
        · exact hux ▸ hbc
        · exact hall u huxs

/-- Claim C9: updating an invoice line item's quantity for a usage-billed
component overwrites the usage of the most recent matching
`ComponentUsage` row (same resource, component and billing month; maximal
date) with the new quantity, leaving every other row untouched; when the
component is not usage-billed, or the resource, plan-component link or
matching usage row is missing, no `ComponentUsage` row is modified and
the update fails with a validation error. -/
theorem C9_quantity_usage_sync (pcs : List PlanComponentRow)
    (usages : List ComponentUsageRow) (item : InvoiceItemRow) (q : Int) :
    (¬ usageEditable pcs usages item →
      ∃ msg, update_invoice_item pcs usages item (some q) = .error msg)
    ∧ (usageEditable pcs usages item →
      ∃ (rid : Nat) (pc : PlanComponentRow) (cu : ComponentUsageRow), item.resourceId = some rid
        ∧ pc.componentBilling = BillingType.usage
        ∧ cu ∈ matchingUsages usages rid pc.componentId item.invYear
            item.invMonth
        ∧ (∀ u2 ∈ matchingUsages usages rid pc.componentId item.invYear
            item.invMonth, u2.date ≤ cu.date)
        ∧ update_invoice_item pcs usages item (some q)
          = .ok (usages.map (fun u =>
              if u.id = cu.id then { u with usage := q } else u),
            { item with quantity := q })) := by
  constructor
  · intro hne
    cases hrid : item.resourceId with
    | none =>
        exact ⟨"Marketplace resource is not defined in invoice item.",
          by simp [update_invoice_item, hrid]⟩
    | some rid =>
        cases hpcid : item.planComponentId with
        | none =>
            exact ⟨"Plan component is not defined in invoice item details.",
              by simp [update_invoice_item, hrid, hpcid]⟩
        | some pcid =>
            cases hfind : pcs.find? (fun p2 => p2.id = pcid) with
            | none =>
                exact ⟨"Related plan component is not found.",
                  by simp [update_invoice_item, hrid, hpcid, hfind]⟩
            | some pc =>
                by_cases hbill : pc.componentBilling = BillingType.usage
                · cases hmat : matchingUsages usages rid pc.componentId
                      item.invYear item.invMonth with
                  | nil =>
                      refine ⟨"Component usage is not found.", ?_⟩
                      simp [update_invoice_item, hrid, hpcid, hfind, hbill,
                        hmat, latestUsage]
                  | cons x xs =>
                      exact absurd
                        ⟨rid, pcid, pc, hrid, hpcid, hfind, hbill,
                          by rw [hmat]; exact List.cons_ne_nil x xs⟩ hne
                · refine ⟨"Offering component is not usage-based.", ?_⟩
                  simp [update_invoice_item, hrid, hpcid, hfind, hbill]
  · rintro ⟨rid, pcid, pc, hrid, hpcid, hfind, hbill, hmat⟩
    rcases latestUsage_spec _ hmat with ⟨cu, hlat, hcu, hmax⟩
    refine ⟨rid, pc, cu, hrid, hbill, hcu, hmax, ?_⟩
    simp [update_invoice_item, hrid, hpcid, hfind, hbill, hlat]

/-- Claim C9 witness: a concrete quantity edit.  A usage-billed plan
component and two matching usage rows (dates 3 and 9): the edit to
quantity 12 overwrites the usage of the later row only; and an item
lacking the resource link fails with a validation error touching
nothing. -/
theorem C9_witness :
    (∃ msg, update_invoice_item [⟨4, 7, BillingType.usage⟩]
        [⟨1, 2, 7, 2024, 3, 3, 60⟩, ⟨2, 2, 7, 2024, 3, 9, 70⟩]
        ⟨none, some 4, 2024, 3, 5⟩ (some 12) = .error msg)
    ∧ (∃ (rid : Nat) (pc : PlanComponentRow) (cu : ComponentUsageRow),
        (⟨some 2, some 4, 2024, 3, 5⟩ : InvoiceItemRow).resourceId = some rid
        ∧ pc.componentBilling = BillingType.usage
        ∧ cu ∈ matchingUsages
            [⟨1, 2, 7, 2024, 3, 3, 60⟩, ⟨2, 2, 7, 2024, 3, 9, 70⟩] rid
            pc.componentId 2024 3
        ∧ (∀ u2 ∈ matchingUsages
            [⟨1, 2, 7, 2024, 3, 3, 60⟩, ⟨2, 2, 7, 2024, 3, 9, 70⟩] rid
            pc.componentId 2024 3, u2.date ≤ cu.date)
        ∧ update_invoice_item [⟨4, 7, BillingType.usage⟩]
            [⟨1, 2, 7, 2024, 3, 3, 60⟩, ⟨2, 2, 7, 2024, 3, 9, 70⟩]
            ⟨some 2, some 4, 2024, 3, 5⟩ (some 12)
          = .ok ([⟨1, 2, 7, 2024, 3, 3, 60⟩,
              ⟨2, 2, 7, 2024, 3, 9, 70⟩].map (fun u =>
                if u.id = cu.id then { u with usage := 12 } else u),
            ⟨some 2, some 4, 2024, 3, 12⟩)) :=
  ⟨(C9_quantity_usage_sync [⟨4, 7, BillingType.usage⟩]
      [⟨1, 2, 7, 2024, 3, 3, 60⟩, ⟨2, 2, 7, 2024, 3, 9, 70⟩]
      ⟨none, some 4, 2024, 3, 5⟩ 12).1
      (by rintro ⟨rid, pcid, pc, h, hrest⟩; exact Option.noConfusion h),
    (C9_quantity_usage_sync [⟨4, 7, BillingType.usage⟩]
      [⟨1, 2, 7, 2024, 3, 3, 60⟩, ⟨2, 2, 7, 2024, 3, 9, 70⟩]
      ⟨some 2, some 4, 2024, 3, 5⟩ 12).2
      ⟨2, 4, ⟨4, 7, BillingType.usage⟩, rfl, rfl, by decide, rfl,
        by decide⟩⟩

/-! ## Order approval and deferred processing (`marketplace/tasks.py`,
`approve_order` and `process_order`) -/

/-- Modelled from the spec: the offering type key of the remote
marketplace plugin (`waldur_mastermind.marketplace_remote.PLUGIN_NAME`;
the module defining the constant is not among the sources, only its
importer).  `process_order` excludes items of this offering type, which
are processed only after an external approval step. -/
def REMOTE_PLUGIN_NAME : String := "Marketplace.Remote"

/-- An order as seen by `approve_order`: its state, approval bookkeeping
and items. -/
structure OrderW where
  state : OrderState
  approvedBy : Option Nat
  approvedAt : Option Nat
  items : List OrderItemRec
deriving DecidableEq, Repr

/-- A task scheduled through `transaction.on_commit(lambda:
process_order.delay(...))`: it runs only after the approving transaction
commits. -/
inductive ScheduledTask
  | processOrder (user : Nat)
deriving DecidableEq, Repr

/-- Embedding of `tasks.approve_order(order, user)`: `order.approve()`
(allowed only from REQUESTED_FOR_APPROVAL, raising otherwise), recording
of the approver and approval time, and registration of the deferred
`process_order` task.  The returned order is the state as committed;
the task is returned unexecuted (commit-then-notify). -/
def approve_order (o : OrderW) (user now : Nat) :
    Except String (OrderW × ScheduledTask) :=
  match orderApprove o.state with
  | none => .error "TransitionNotAllowed"
  | some s2 =>
      .ok ({ o with
          state := s2,
          approvedBy := some user,
          approvedAt := some now },
        .processOrder user)

/-- The item loop of `tasks.process_order`: for every item of the order
except remote-plugin items, `set_state_executing()` (raising
`TransitionNotAllowed` from a non-Pending/Erred state) and then dispatch
through `utils.process_order_item`. -/
def processOrderItems (procs : String → Option Processor) :
    List OrderItemRec → Except String (List OrderItemRec)
  | [] => .ok []
  | it :: rest =>
      if it.offeringType = REMOTE_PLUGIN_NAME then
        match processOrderItems procs rest with
        | .error e => .error e
        | .ok rest2 => .ok (it :: rest2)
      else
        match orderItemStep it.state .setStateExecuting with
        | none => .error "TransitionNotAllowed"
        | some s2 =>
            match processOrderItems procs rest with
            | .error e => .error e
            | .ok rest2 =>
                .ok (process_order_item (procs it.offeringType)
                  { it with state := s2 } :: rest2)

/-- Embedding of the `tasks.process_order` task body. -/
def process_order (procs : String → Option Processor) (o : OrderW) :
    Except String OrderW :=
  match processOrderItems procs o.items with
  | .error e => .error e
  | .ok items2 => .ok { o with items := items2 }

theorem processOrderItems_ok (procs : String → Option Processor)
    (items : List OrderItemRec)
    (h : ∀ it ∈ items, it.offeringType ≠ REMOTE_PLUGIN_NAME →
      it.state = ItemState.pending ∨ it.state = ItemState.erred) :
    processOrderItems procs items = .ok (items.map (fun it =>
      if it.offeringType = REMOTE_PLUGIN_NAME then it
      else process_order_item (procs it.offeringType)
        { it with state := ItemState.executing })) := by
  induction items with
  | nil => rfl
  | cons it rest ih =>
      have hrest := ih fun it2 hm => h it2 (List.mem_cons_of_mem it hm)
      by_cases hrem : it.offeringType = REMOTE_PLUGIN_NAME
      · simp [processOrderItems, hrem, hrest]
      · have hstate :=
          h it (List.mem_cons_self it rest) hrem
        have hstep : orderItemStep it.state ItemEvent.setStateExecuting
            = some ItemState.executing := by
          rcases hstate with h2 | h2 <;> simp [orderItemStep, h2]
        simp [processOrderItems, hrem, hstep, hrest]

/-- Claim C8: `approve_order` succeeds only from
REQUESTED_FOR_APPROVAL (raising otherwise with nothing changed), and on
success sets the order Executing, records the approver and approval
time, leaves every item untouched, and schedules — to run only after
commit — processing that moves every non-remote item to Executing and
dispatches it to its processor, excluding remote-plugin items. -/
theorem C8_approve_then_process (o : OrderW) (user now : Nat)
    (procs : String → Option Processor)
    (hready : ∀ it ∈ o.items, it.offeringType ≠ REMOTE_PLUGIN_NAME →
      it.state = ItemState.pending ∨ it.state = ItemState.erred) :
    (o.state ≠ OrderState.requestedForApproval →
      approve_order o user now = .error "TransitionNotAllowed")
    ∧ (o.state = OrderState.requestedForApproval →
      ∃ o2, approve_order o user now = .ok (o2, .processOrder user)
        ∧ o2.state = OrderState.executing
        ∧ o2.approvedBy = some user
        ∧ o2.approvedAt = some now
        ∧ o2.items = o.items
        ∧ process_order procs o2 = .ok { o2 with
            items := o.items.map (fun it =>
              if it.offeringType = REMOTE_PLUGIN_NAME then it
              else process_order_item (procs it.offeringType)
                { it with state := ItemState.executing }) }) := by
  constructor
  · intro hne
    rw [approve_order,
      show orderApprove o.state = none from if_neg hne]
  · intro heq
    refine ⟨{ o with
        state := OrderState.executing,
        approvedBy := some user,
        approvedAt := some now }, ?_, rfl, rfl, rfl, rfl, ?_⟩
    · rw [approve_order,
        show orderApprove o.state = some OrderState.executing by
          rw [orderApprove, if_pos heq]]
    · rw [process_order]
      rw [show ({ o with
          state := OrderState.executing,
          approvedBy := some user,
          approvedAt := some now } : OrderW).items = o.items from rfl]
      rw [processOrderItems_ok procs o.items hready]

/-- Claim C8 witness: an order awaiting approval with one remote-plugin
item (left untouched, in state Done) and one ordinary pending item
(moved to Executing and dispatched to a succeeding processor). -/
theorem C8_witness :
    ∃ o2, approve_order
        ⟨.requestedForApproval, none, none,
          [⟨"Marketplace.Remote", .done, "", ""⟩,
           ⟨"basic", .pending, "", ""⟩]⟩ 9 100
      = .ok (o2, .processOrder 9)
      ∧ o2.state = OrderState.executing
      ∧ o2.approvedBy = some 9
      ∧ o2.approvedAt = some 100
      ∧ o2.items = [⟨"Marketplace.Remote", .done, "", ""⟩,
          ⟨"basic", .pending, "", ""⟩]
      ∧ process_order (fun _ => some (fun it2 => ProcOutcome.ok it2)) o2
        = .ok { o2 with
            items := ([⟨"Marketplace.Remote", .done, "", ""⟩,
              ⟨"basic", .pending, "", ""⟩] : List OrderItemRec).map
              (fun it =>
                if it.offeringType = REMOTE_PLUGIN_NAME then it
                else process_order_item
                  ((fun _ => some (fun it2 => ProcOutcome.ok it2))
                    it.offeringType)
                  { it with state := ItemState.executing }) } :=
  (C8_approve_then_process
      ⟨.requestedForApproval, none, none,
        [⟨"Marketplace.Remote", .done, "", ""⟩,
         ⟨"basic", .pending, "", ""⟩]⟩ 9 100
      (fun _ => some (fun it2 => ProcOutcome.ok it2))
      (by decide)).2 rfl

/-! ## Atomic resource move (`marketplace/utils.py`, `move_resource` and
`MoveResourceException`) -/

/-- Invoice states.  Only PENDING is named by the sources here
(`invoice__state=invoice_models.Invoice.States.PENDING`); the remaining
states are modelled from the spec's "movable state" distinction. -/
inductive InvoiceState
  | pending
  | created
  | paid
  | canceled
deriving DecidableEq, Repr

/-- The target project of a move, with its customer's id and blocked
flag. -/
structure ProjectRec where
  id : Nat
  customerId : Nat
  customerBlocked : Bool
deriving DecidableEq, Repr

/-- One `Order` row with the resources its items reference (`none` for
an item without a resource). -/
structure OrderRow where
  id : Nat
  projectId : Nat
  itemResourceIds : List (Option Nat)
deriving DecidableEq, Repr

/-- One `Invoice` row: customer, billing month and state. -/
structure InvoiceRow where
  id : Nat
  customerId : Nat
  year : Nat
  month : Nat
  istate : InvoiceState
deriving DecidableEq, Repr

/-- One `InvoiceItem` row: resource, project and owning invoice. -/
structure InvoiceItemRow4 where
  id : Nat
  resourceId : Option Nat
  projectId : Nat
  invoiceId : Nat
deriving DecidableEq, Repr

/-- The state touched by `move_resource`: the moved resource's project
(and its backend scope's project when a scope exists), every order, every
invoice and invoice item.  `nextInvoiceId` feeds primary keys of
invoices created by `get_or_create_invoice`.  (The relocation of
offerings bound to the scope's service settings only rewrites their
project field and cannot raise; it is not tracked here.) -/
structure MoveWorld where
  resourceId : Nat
  resourceProject : Nat
  scopeProject : Option Nat
  orders : List OrderRow
  invoices : List InvoiceRow
  invoiceItems : List InvoiceItemRow4
  nextInvoiceId : Nat
deriving DecidableEq, Repr

/-- The two exception kinds of the move path: DRF `ValidationError`
(blocked customer) and the dedicated `MoveResourceException`. -/
inductive MoveErr
  | validation (msg : String)
  | moveException (msg : String)
deriving DecidableEq, Repr

/-- Message of the shared-order `MoveResourceException`. -/
def sharedOrdersMsg : String :=
  "Resource moving is not possible, because related orders are related to other resources."

/-- Message of the invoice-target `MoveResourceException`. -/
def invoiceItemsMsg : String :=
  "Resource moving is not possible, because invoice items moving is not possible."

/-- The `for order in Order.objects.filter(pk__in=order_ids)` loop:
an order referencing the moved resource raises when any of its items
references a different resource (or no resource), and is relocated to the
new project otherwise; orders not referencing the resource are left
alone. -/
def moveOrders (rid projNew : Nat) :
    List OrderRow → Except MoveErr (List OrderRow)
  | [] => .ok []
  | o :: rest =>
      if o.itemResourceIds.contains (some rid) then
        if o.itemResourceIds.any (fun x => !(x == some rid)) then
          .error (.moveException sharedOrdersMsg)
        else
          match moveOrders rid projNew rest with
          | .error e => .error e
          | .ok rest2 => .ok ({ o with projectId := projNew } :: rest2)
      else
        match moveOrders rid projNew rest with
        | .error e => .error e
        | .ok rest2 => .ok (o :: rest2)

/-- Lookup of an invoice row by primary key. -/
def findInvoiceById (invoices : List InvoiceRow) (iid : Nat) :
    Option InvoiceRow :=
  invoices.find? (fun i => i.id == iid)

/-- Lookup of a customer's invoice for a billing month. -/
def findTarget (invoices : List InvoiceRow) (custId y m : Nat) :
    Option InvoiceRow :=
  invoices.find?
    (fun i => i.customerId == custId && i.year == y && i.month == m)

/-- Modelled from the spec:
`registrators.RegistrationManager.get_or_create_invoice(customer, date)`
(the invoices registrators module is not among the sources): returns the
customer's invoice for the month, creating a fresh PENDING invoice when
none exists. -/
def get_or_create_invoice (invoices : List InvoiceRow) (nextId : Nat)
    (custId y m : Nat) : InvoiceRow × List InvoiceRow × Nat :=
  match findTarget invoices custId y m with
  | some inv => (inv, invoices, nextId)
  | none =>
      (⟨nextId, custId, y, m, .pending⟩,
        invoices ++ [⟨nextId, custId, y, m, .pending⟩], nextId + 1)

/-- The `for invoice_item in InvoiceItem.objects.filter(...)` loop:
each selected item's target invoice is fetched or created for the new
customer; a non-PENDING target raises `MoveResourceException`; otherwise
the item is relocated to the new project and target invoice. -/
def moveInvoiceItems (p : ProjectRec) (invs : List InvoiceRow)
    (nextId : Nat) :
    List InvoiceItemRow4 →
      Except MoveErr (List InvoiceRow × Nat × List InvoiceItemRow4)
  | [] => .ok (invs, nextId, [])
  | it :: rest =>
      match findInvoiceById invs it.invoiceId with
      | none => .error (.validation "invoice item has no invoice")
      | some startInv =>
          match get_or_create_invoice invs nextId p.customerId
              startInv.year startInv.month with
          | (target, invs2, nextId2) =>
              if target.istate ≠ InvoiceState.pending then
                .error (.moveException invoiceItemsMsg)
              else
                match moveInvoiceItems p invs2 nextId2 rest with
                | .error e => .error e
                | .ok (invs3, nextId3, rest2) =>
                    .ok (invs3, nextId3,
                      { it with projectId := p.id,
                                invoiceId := target.id } :: rest2)

/-- The queryset selecting the invoice items to relocate: items of the
moved resource sitting in a PENDING invoice under the old project. -/
def movableSelection (w : MoveWorld) : List InvoiceItemRow4 :=
  w.invoiceItems.filter (fun it =>
    it.resourceId == some w.resourceId
    && (match findInvoiceById w.invoices it.invoiceId with
        | some inv => inv.istate == InvoiceState.pending
        | none => false)
    && it.projectId == w.resourceProject)

/-- Embedding of `utils.move_resource(resource, project)` (the body of
the `transaction.atomic` block): validates the target customer, moves
the resource (and its scope) to the new project, relocates every order
referencing the resource, then relocates the pending invoice items.  An
error result embeds a raised exception, which `transaction.atomic` turns
into a full rollback. -/
def move_resource (w : MoveWorld) (p : ProjectRec) :
    Except MoveErr MoveWorld :=
  if p.customerBlocked then
    .error (.validation "New customer must be not blocked")
  else
    let oldProject := w.resourceProject
    match moveOrders w.resourceId p.id w.orders with
    | .error e => .error e
    | .ok orders2 =>
        let sel := movableSelection w
        let notSel := w.invoiceItems.filter (fun it =>
          !(it.resourceId == some w.resourceId
            && (match findInvoiceById w.invoices it.invoiceId with
                | some inv => inv.istate == InvoiceState.pending
                | none => false)
            && it.projectId == oldProject))
        match moveInvoiceItems p w.invoices w.nextInvoiceId sel with
        | .error e => .error e
        | .ok (invs2, nextId2, moved) =>
            .ok { w with
              resourceProject := p.id,
              scopeProject := w.scopeProject.map (fun _ => p.id),
              orders := orders2,
              invoices := invs2,
              invoiceItems := notSel ++ moved,
              nextInvoiceId := nextId2 }

/-- The observable effect of the `transaction.atomic` wrapper: a raise
rolls every mutation back. -/
def run_move (w : MoveWorld) (p : ProjectRec) : MoveWorld :=
  match move_resource w p with
  | .ok w2 => w2
  | .error _ => w

/-- Some order referencing the moved resource also carries an item for a
different resource (or an item without a resource). -/
def sharedOrderExists (w : MoveWorld) : Bool :=
  w.orders.any (fun o =>
    o.itemResourceIds.contains (some w.resourceId)
    && o.itemResourceIds.any (fun x => !(x == some w.resourceId)))

/-- A selected invoice item whose target invoice — the new customer's
pre-existing invoice for the item's billing month — is not PENDING. -/
def badTargetForItem (invoices : List InvoiceRow) (p : ProjectRec)
    (it : InvoiceItemRow4) : Bool :=
  match findInvoiceById invoices it.invoiceId with
  | none => false
  | some s =>
      match findTarget invoices p.customerId s.year s.month with
      | some inv => inv.istate != InvoiceState.pending
      | none => false

/-- Some selected invoice item has a non-PENDING target invoice. -/
def badInvoiceTargetExists (w : MoveWorld) (p : ProjectRec) : Bool :=
  (movableSelection w).any (badTargetForItem w.invoices p)

theorem moveOrders_error (rid projNew : Nat) (orders : List OrderRow)
    (h : orders.any (fun o =>
      o.itemResourceIds.contains (some rid)
      && o.itemResourceIds.any (fun x => !(x == some rid))) = true) :
    moveOrders rid projNew orders
      = .error (.moveException sharedOrdersMsg) := by
  induction orders with
  | nil => cases h
  | cons o rest ih =>
      rw [List.any_cons] at h
      by_cases hc : o.itemResourceIds.contains (some rid) = true
      · by_cases hs : o.itemResourceIds.any (fun x => !(x == some rid)) = true
        · simp only [moveOrders, if_pos hc, if_pos hs]
        · have hrest : rest.any (fun o2 =>
              o2.itemResourceIds.contains (some rid)
              && o2.itemResourceIds.any (fun x => !(x == some rid)))
                = true := by
            rcases Bool.or_eq_true _ _ |>.mp h with h1 | h2
            · exact absurd ((Bool.and_eq_true _ _).mp h1).2 hs
            · exact h2
          simp only [moveOrders, if_pos hc, if_neg hs, ih hrest]
      · have hrest : rest.any (fun o2 =>
            o2.itemResourceIds.contains (some rid)
            && o2.itemResourceIds.any (fun x => !(x == some rid)))
              = true := by
          rcases Bool.or_eq_true _ _ |>.mp h with h1 | h2
          · exact absurd ((Bool.and_eq_true _ _).mp h1).1 hc
          · exact h2
        simp only [moveOrders, if_neg hc, ih hrest]

theorem moveOrders_ok (rid projNew : Nat) (orders : List OrderRow)
    (h : orders.any (fun o =>
      o.itemResourceIds.contains (some rid)
      && o.itemResourceIds.any (fun x => !(x == some rid))) = false) :
    moveOrders rid projNew orders = .ok (orders.map (fun o =>
      if o.itemResourceIds.contains (some rid)
      then { o with projectId := projNew } else o)) := by
  induction orders with
  | nil => rfl
  | cons o rest ih =>
      rw [List.any_cons, Bool.or_eq_false_iff] at h
      have hrest := ih h.2
      by_cases hc : o.itemResourceIds.contains (some rid) = true
      · have hs := h.1
        rw [hc] at hs
        simp only [Bool.true_and] at hs
        have hcm : some rid ∈ o.itemResourceIds := by simpa using hc
        have hsm : ¬∃ x ∈ o.itemResourceIds, ¬x = some rid := by
          simpa using hs
        simp [moveOrders, hcm, hsm, hrest]
      · have hcm : some rid ∉ o.itemResourceIds := by simpa using hc
        simp [moveOrders, hcm, hrest]

/-- The invoice table only ever grows by freshly created PENDING
invoices during the item loop. -/
def invExtends (invoices0 invs : List InvoiceRow) : Prop :=
  ∃ added, invs = invoices0 ++ added
    ∧ ∀ a ∈ added, a.istate = InvoiceState.pending

theorem find?_append_left {α : Type} (p : α → Bool) (l l2 : List α)
    (x : α) (h : l.find? p = some x) : (l ++ l2).find? p = some x := by
  induction l with
  | nil => cases h
  | cons a rest ih =>
      rw [List.cons_append]
      by_cases hp : p a = true
      · rw [List.find?_cons_of_pos _ hp] at h
        rw [List.find?_cons_of_pos _ hp]
        exact h
      · rw [List.find?_cons_of_neg _ (by simp [hp])] at h
        rw [List.find?_cons_of_neg _ (by simp [hp])]
        exact ih h

theorem find?_append_none {α : Type} (p : α → Bool) (l l2 : List α)
    (h : l.find? p = none) : (l ++ l2).find? p = l2.find? p := by
  induction l with
  | nil => rfl
  | cons a rest ih =>
      by_cases hp : p a = true
      · rw [List.find?_cons_of_pos _ hp] at h
        cases h
      · rw [List.find?_cons_of_neg _ (by simp [hp])] at h
        rw [List.cons_append, List.find?_cons_of_neg _ (by simp [hp])]
        exact ih h

theorem findInvoiceById_extends {invoices0 invs : List InvoiceRow}
    (hext : invExtends invoices0 invs) (iid : Nat) (inv : InvoiceRow)
    (h : findInvoiceById invoices0 iid = some inv) :
    findInvoiceById invs iid = some inv := by
  rcases hext with ⟨added, rfl, _⟩
  exact find?_append_left _ _ _ _ h

theorem findTarget_extends_some {invoices0 invs : List InvoiceRow}
    (hext : invExtends invoices0 invs) (c y m : Nat) (inv : InvoiceRow)
    (h : findTarget invoices0 c y m = some inv) :
    findTarget invs c y m = some inv := by
  rcases hext with ⟨added, rfl, _⟩
  exact find?_append_left _ _ _ _ h

theorem findTarget_extends_none {invoices0 invs : List InvoiceRow}
    (hext : invExtends invoices0 invs) (c y m : Nat)
    (h : findTarget invoices0 c y m = none) (inv : InvoiceRow)
    (h2 : findTarget invs c y m = some inv) :
    inv.istate = InvoiceState.pending := by
  rcases hext with ⟨added, rfl, hpend⟩
  rw [findTarget, find?_append_none _ _ _ h] at h2
  exact hpend inv (List.mem_of_find?_eq_some h2)

theorem moveInvoiceItems_error (p : ProjectRec)
    (invoices0 : List InvoiceRow) (sel : List InvoiceItemRow4) :
    ∀ (invs : List InvoiceRow) (nextId : Nat), invExtends invoices0 invs →
      (∀ it ∈ sel, (findInvoiceById invoices0 it.invoiceId).isSome = true) →
      sel.any (badTargetForItem invoices0 p) = true →
      moveInvoiceItems p invs nextId sel
        = .error (.moveException invoiceItemsMsg) := by
  induction sel with
  | nil =>
      intro invs nextId _ _ hbad
      cases hbad
  | cons it rest ih =>
      intro invs nextId hext hsel hbad
      obtain ⟨s0, hs0⟩ := Option.isSome_iff_exists.mp
        (hsel it (List.mem_cons_self it rest))
      have hs0v : findInvoiceById invs it.invoiceId = some s0 :=
        findInvoiceById_extends hext _ _ hs0
      rw [List.any_cons] at hbad
      by_cases hb : badTargetForItem invoices0 p it = true
      · simp only [badTargetForItem, hs0] at hb
        cases ht : findTarget invoices0 p.customerId s0.year s0.month with
        | none =>
            rw [ht] at hb
            cases hb
        | some tinv =>
            rw [ht] at hb
            have htv := findTarget_extends_some hext _ _ _ _ ht
            have hne : tinv.istate ≠ InvoiceState.pending := by
              simpa using hb
            simp [moveInvoiceItems, hs0v, get_or_create_invoice, htv, hne]
      · have hbadrest : rest.any (badTargetForItem invoices0 p) = true := by
          rcases (Bool.or_eq_true _ _).mp hbad with h1 | h1
          · exact absurd h1 hb
          · exact h1
        have hselrest : ∀ it2 ∈ rest,
            (findInvoiceById invoices0 it2.invoiceId).isSome = true :=
          fun it2 hm => hsel it2 (List.mem_cons_of_mem it hm)
        simp only [badTargetForItem, hs0] at hb
        cases ht : findTarget invs p.customerId s0.year s0.month with
        | some tinv =>
            have hp2 : tinv.istate = InvoiceState.pending := by
              cases ht0 : findTarget invoices0 p.customerId s0.year
                  s0.month with
              | some tinv0 =>
                  have h2 := findTarget_extends_some hext _ _ _ _ ht0
                  rw [ht] at h2
                  injection h2 with h3
                  rw [ht0] at hb
                  have h4 : tinv0.istate = InvoiceState.pending := by
                    simpa using hb
                  rw [h3]
                  exact h4
              | none =>
                  exact findTarget_extends_none hext _ _ _ ht0 tinv ht
            simp only [moveInvoiceItems, hs0v, get_or_create_invoice, ht]
            rw [if_neg (by simp [hp2])]
            rw [ih invs nextId hext hselrest hbadrest]
        | none =>
            have hext2 : invExtends invoices0 (invs ++
                [⟨nextId, p.customerId, s0.year, s0.month, .pending⟩]) := by
              rcases hext with ⟨added, rfl, hpend⟩
              refine ⟨added ++
                [⟨nextId, p.customerId, s0.year, s0.month, .pending⟩],
                by simp, ?_⟩
              intro a ha
              rcases List.mem_append.mp ha with ha2 | ha2
              · exact hpend a ha2
              · simp only [List.mem_singleton] at ha2
                rw [ha2]
            simp only [moveInvoiceItems, hs0v, get_or_create_invoice, ht]
            rw [if_neg (by simp)]
            rw [ih _ _ hext2 hselrest hbadrest]

/-- Claim C4: `move_resource` is all-or-nothing — when some order
referencing the resource also contains an item for a different resource,
or (with all orders exclusive) some pending invoice item's target invoice
is not PENDING, the move raises the dedicated `MoveResourceException`
(not a validation error) and, the body running inside
`transaction.atomic`, every entity — the resource's project, every
order's project, every invoice and invoice item — is left exactly as
before. -/
theorem C4_atomic_resource_move (w : MoveWorld) (p : ProjectRec)
    (hnb : p.customerBlocked = false)
    (hbad : sharedOrderExists w = true
      ∨ (sharedOrderExists w = false
          ∧ badInvoiceTargetExists w p = true)) :
    (∃ m, move_resource w p = .error (.moveException m))
    ∧ run_move w p = w := by
  have herr : ∃ m, move_resource w p = .error (.moveException m) := by
    rcases hbad with hsh | ⟨hnsh, hbadi⟩
    · exact ⟨sharedOrdersMsg, by
        simp [move_resource, hnb,
          moveOrders_error w.resourceId p.id w.orders hsh]⟩
    · refine ⟨invoiceItemsMsg, ?_⟩
      have hord := moveOrders_ok w.resourceId p.id w.orders hnsh
      have hsel : ∀ it ∈ movableSelection w,
          (findInvoiceById w.invoices it.invoiceId).isSome = true := by
        intro it hm
        have hcond := (List.mem_filter.mp hm).2
        rcases (Bool.and_eq_true _ _).mp hcond with ⟨hab, hc⟩
        rcases (Bool.and_eq_true _ _).mp hab with ⟨ha, hbm⟩
        cases hfi : findInvoiceById w.invoices it.invoiceId with
        | none =>
            rw [hfi] at hbm
            cases hbm
        | some inv => simp
      have hinv := moveInvoiceItems_error p w.invoices
        (movableSelection w) w.invoices w.nextInvoiceId
        ⟨[], by simp, by simp⟩ hsel hbadi
      simp [move_resource, hnb, hord, hinv]
  refine ⟨herr, ?_⟩
  rcases herr with ⟨m, hm⟩
  simp [run_move, hm]

/-- Claim C4 witness: a world whose only order carries items for
resources 1 and 2; moving resource 1 to an unblocked project raises the
dedicated move exception and changes nothing. -/
theorem C4_witness :
    (∃ m, move_resource
        ⟨1, 10, none, [⟨1, 10, [some 1, some 2]⟩], [], [], 0⟩
        ⟨20, 5, false⟩ = .error (.moveException m))
    ∧ run_move ⟨1, 10, none, [⟨1, 10, [some 1, some 2]⟩], [], [], 0⟩
        ⟨20, 5, false⟩
      = ⟨1, 10, none, [⟨1, 10, [some 1, some 2]⟩], [], [], 0⟩ :=
  C4_atomic_resource_move
    ⟨1, 10, none, [⟨1, 10, [some 1, some 2]⟩], [], [], 0⟩
    ⟨20, 5, false⟩ rfl (Or.inl (by decide))

end Waldur
